import Mathlib

/-!
Shallow embedding of the scheduling core of `src/app.py`
(class `TaskBreakdownAgent`): free-slot discovery
(`get_calendar_availability`), deadline-aware start selection
(`find_optimal_start_time`) and sequential placement
(`create_calendar_events`).

Time is measured in whole minutes since an epoch placed at 00:00 on a
Monday (for the concrete scenarios of the spec the epoch is Monday
2024-03-11T00:00).  Every `datetime.replace` call on the modelled paths
zeroes seconds and microseconds, and all durations are whole minutes, so
minute granularity is faithful.  Python `weekday()` returns 0 for Monday,
matching `t / 1440 % 7` with a Monday epoch.  The float conversion
`timedelta(hours=total_duration_minutes / 60)` in
`find_optimal_start_time` is modelled exactly as
`total_duration_minutes` minutes.

The two external collaborators are abstracted as data: the calendar
read becomes a list of busy intervals, and the calendar write
(`events().insert`) becomes an oracle `ok : Nat → Bool` giving the
outcome of the insert attempted for each item index.
-/

namespace App

/-- Calendar-day index of a time (Python `.date()` up to ordering). -/
def dayOf (t : Nat) : Nat := t / 1440

/-- Hour of day (Python `.hour`). -/
def hourOf (t : Nat) : Nat := t % 1440 / 60

/-- Weekday with 0 = Monday, …, 6 = Sunday (Python `.weekday()`). -/
def weekdayOf (t : Nat) : Nat := t / 1440 % 7

/-- Python `t.replace(hour=h, minute=m, second=0, microsecond=0)`. -/
def replaceHM (t : Nat) (h m : Nat) : Nat := t / 1440 * 1440 + h * 60 + m

/-- A half-open time interval: a busy period or a free slot
(Python dicts with keys `start` and `end`). -/
structure Interval where
  start : Nat
  stop : Nat
deriving DecidableEq

/-- The conflict test of `get_calendar_availability` (src/app.py:186-190):
the slot `[s, e)` conflicts when some busy period `b` satisfies
`slot_start < busy.end and slot_end > busy.start`. -/
def conflictsBusy (busy : List Interval) (s e : Nat) : Bool :=
  busy.any (fun b => decide (s < b.stop) && decide (e > b.start))

/-- The inner hour loop of `get_calendar_availability` (src/app.py:177-198):
on calendar day `day`, 60-minute slots starting at hours 9, 10, …, 17 that
conflict with no busy period. -/
def daySlots (busy : List Interval) (day : Nat) : List Interval :=
  (List.range 9).filterMap (fun i =>
    let s := day * 1440 + (9 + i) * 60
    if conflictsBusy busy s (s + 60) then none else some ⟨s, s + 60⟩)

/-- The day loop of `get_calendar_availability` (src/app.py:168-201):
`current_date` starts at `start_date.replace(hour=9, minute=0)` — hence on
the calendar day of `start_date` itself — and runs while
`current_date.date() <= (start_date + days_ahead).date()`, i.e. over
`daysAhead + 1` consecutive days, skipping Saturday (5) and Sunday (6). -/
def availableSlots (busy : List Interval) (startDate : Nat) (daysAhead : Nat) :
    List Interval :=
  (List.range (daysAhead + 1)).flatMap (fun k =>
    let day := dayOf startDate + k
    if 5 ≤ day % 7 then [] else daySlots busy day)

/-- `get_calendar_availability` (src/app.py:133-207), with the external
event list already converted to busy intervals: returns
`available_slots[:20]`. -/
def get_calendar_availability (busy : List Interval) (startDate : Nat)
    (daysAhead : Nat) : List Interval :=
  (availableSlots busy startDate daysAhead).take 20

/-- The loop `while t.weekday() >= 5: t += timedelta(days=1)`, unrolled:
from Saturday it adds two days, from Sunday one day, otherwise nothing. -/
def skipWeekendDays (t : Nat) : Nat :=
  if weekdayOf t = 5 then t + 2 * 1440
  else if weekdayOf t = 6 then t + 1440
  else t

/-- "Next business day at 9 AM" (src/app.py:215-219 and the fallback at
src/app.py:230-234): `now + 1 day`, hour reset to 9:00, weekends skipped. -/
def nextBusinessDay9 (now : Nat) : Nat :=
  skipWeekendDays (replaceHM (now + 1440) 9 0)

/-- The search anchor of `find_optimal_start_time` (src/app.py:213-223):
without a deadline, next business day at 9 AM; with a deadline,
`now + 1 hour` rounded down to the top of the hour. -/
def searchStartOf (now : Nat) (deadline : Option Nat) : Nat :=
  match deadline with
  | none => nextBusinessDay9 now
  | some _ => (now + 60) / 60 * 60

/-- The candidate slots consulted by `find_optimal_start_time`
(src/app.py:226, `days_ahead` left at its default 14). -/
def candidates (busy : List Interval) (now : Nat) (deadline : Option Nat) :
    List Interval :=
  get_calendar_availability busy (searchStartOf now deadline) 14

/-- Result of `find_optimal_start_time`: the chosen start, plus whether the
non-fatal warning `"Cannot complete all tasks before deadline"` was
printed on the way (src/app.py:245). -/
structure ChooseResult where
  start : Nat
  warned : Bool
deriving DecidableEq

/-- `find_optimal_start_time` (src/app.py:209-248). -/
def find_optimal_start_time (busy : List Interval) (now : Nat)
    (deadline : Option Nat) (totalDurationMinutes : Nat) : ChooseResult :=
  match candidates busy now deadline with
  | [] => ⟨nextBusinessDay9 now, false⟩
  | s0 :: _ =>
    match deadline with
    | some dl =>
      match (candidates busy now deadline).find?
          (fun s => decide (s.start + totalDurationMinutes ≤ dl)) with
      | some s => ⟨s.start, false⟩
      | none => ⟨s0.start, true⟩
    | none => ⟨s0.start, false⟩

/-- A subtask as the placer sees it: only `estimated_duration` matters to
the scheduling logic. -/
structure WorkItem where
  duration : Nat
deriving DecidableEq

/-- One record appended to `created_events` (src/app.py:479-514): the
start and duration of the placement, and whether the external insert call
succeeded (`inserted = false` models the `except` branch record carrying
an `error` field instead of an event id). -/
structure Placement where
  start : Nat
  duration : Nat
  inserted : Bool
deriving DecidableEq

/-- The success-path cursor advance of `create_calendar_events`
(src/app.py:491-505).  Note that the source tests
`if next_start.hour >= 18` only AFTER `next_start` was already reset to
hour 9, so that inner day-advance branch can never fire; the embedding
reproduces this faithfully. -/
def advanceCursor (cur : Nat) (d : Nat) : Nat :=
  let next := cur + d + 30
  if 18 ≤ hourOf next ∨ hourOf next < 9 then
    let next2 := replaceHM next 9 0
    let next3 := if 18 ≤ hourOf next2 then next2 + 1440 else next2
    skipWeekendDays next3
  else next

/-- The placement loop of `create_calendar_events` (src/app.py:442-517).
`i` is the index of the current item, `cur` the running cursor
(`current_time`); items of duration < 30 are skipped; on insert failure
the cursor advances by `duration + 30` with no adjustment
(src/app.py:517). -/
def createEventsGo (ok : Nat → Bool) : Nat → Nat → List WorkItem → List Placement
  | _, _, [] => []
  | i, cur, it :: rest =>
    if it.duration < 30 then createEventsGo ok (i + 1) cur rest
    else if ok i then
      ⟨cur, it.duration, true⟩ ::
        createEventsGo ok (i + 1) (advanceCursor cur it.duration) rest
    else
      ⟨cur, it.duration, false⟩ ::
        createEventsGo ok (i + 1) (cur + it.duration + 30) rest

/-- `create_calendar_events` (src/app.py:412-519) with the start date
already determined (the `start_date` parameter / the
`find_optimal_start_time` result). -/
def create_calendar_events (ok : Nat → Bool) (items : List WorkItem)
    (startDate : Nat) : List Placement :=
  createEventsGo ok 0 startDate items

/-! ## Helper lemmas -/

/-- Inversion for membership in the per-day slot list: a produced slot
starts at one of the whole hours 9..17 of its day, is 60 minutes long and
passed the busy-conflict check. -/
theorem mem_daySlots {busy : List Interval} {day : Nat} {s : Interval}
    (hs : s ∈ daySlots busy day) :
    ∃ i, i < 9 ∧ s.start = day * 1440 + (9 + i) * 60 ∧ s.stop = s.start + 60 ∧
      conflictsBusy busy s.start (s.start + 60) = false := by
  simp only [daySlots, List.mem_filterMap, List.mem_range] at hs
  obtain ⟨i, hi, hf⟩ := hs
  split at hf
  · exact absurd hf (by simp)
  · rename_i hc
    refine ⟨i, hi, ?_⟩
    cases hf
    exact ⟨rfl, rfl, by simpa using hc⟩

/-- Inversion for membership in the materialized slot sequence: every slot
comes from a non-weekend day within the scanned window. -/
theorem mem_availableSlots {busy : List Interval} {st : Nat} {d : Nat}
    {s : Interval} (hs : s ∈ availableSlots busy st d) :
    ∃ k, k ≤ d ∧ (dayOf st + k) % 7 < 5 ∧ s ∈ daySlots busy (dayOf st + k) := by
  simp only [availableSlots, List.mem_flatMap, List.mem_range] at hs
  obtain ⟨k, hk, hmem⟩ := hs
  split at hmem
  · simp at hmem
  · rename_i hwd
    exact ⟨k, by omega, by omega, hmem⟩

/-- Dividing a slot start by a day leaves its day index. -/
theorem slotStart_div (D i : Nat) (hi : i < 9) :
    (D * 1440 + (9 + i) * 60) / 1440 = D := by omega

/-- A slot start reduced modulo a day is its minute-of-day. -/
theorem slotStart_mod (D i : Nat) (hi : i < 9) :
    (D * 1440 + (9 + i) * 60) % 1440 = (9 + i) * 60 := by omega

/-! ## Claim theorems -/

/-- Claim C3: every free slot returned by `get_calendar_availability`
starts on a Monday-through-Friday weekday, at an hour h with 9 ≤ h < 18. -/
theorem slot_weekday_and_hours (busy : List Interval) (st : Nat) (d : Nat)
    (s : Interval) (hs : s ∈ get_calendar_availability busy st d) :
    weekdayOf s.start < 5 ∧ 9 ≤ hourOf s.start ∧ hourOf s.start < 18 := by
  have hs' : s ∈ availableSlots busy st d := List.take_subset _ _ hs
  obtain ⟨k, _, hwd, hmem⟩ := mem_availableSlots hs'
  obtain ⟨i, hi, hstart, _, _⟩ := mem_daySlots hmem
  unfold weekdayOf hourOf
  rw [hstart, slotStart_div _ _ hi, slotStart_mod _ _ hi,
    Nat.mul_div_cancel _ (by norm_num)]
  exact ⟨hwd, by omega, by omega⟩

/-- Witness for C3 at a concrete input: the 09:00 slot of the epoch Monday
is returned on an empty calendar and satisfies the bounds. -/
theorem slot_weekday_and_hours_witness :
    weekdayOf (Interval.mk 540 600).start < 5 ∧
      9 ≤ hourOf (Interval.mk 540 600).start ∧
      hourOf (Interval.mk 540 600).start < 18 :=
  slot_weekday_and_hours [] 0 0 ⟨540, 600⟩ (by decide)

/-- Claim C4: no free slot returned by `get_calendar_availability` overlaps
any busy interval of the snapshot, under half-open intersection. -/
theorem slot_disjoint_busy (busy : List Interval) (st : Nat) (d : Nat)
    (s b : Interval) (hs : s ∈ get_calendar_availability busy st d)
    (hb : b ∈ busy) : ¬ (s.start < b.stop ∧ s.stop > b.start) := by
  have hs' : s ∈ availableSlots busy st d := List.take_subset _ _ hs
  obtain ⟨k, _, _, hmem⟩ := mem_availableSlots hs'
  obtain ⟨i, _, _, hstop, hconf⟩ := mem_daySlots hmem
  rw [conflictsBusy, List.any_eq_false] at hconf
  have hcb := hconf b hb
  simp only [Bool.and_eq_true, decide_eq_true_eq, not_and] at hcb
  rw [hstop]
  omega

/-- Witness for C4 at a concrete input: with one busy interval 00:00-01:00
on the epoch Monday, the returned 09:00 slot does not overlap it. -/
theorem slot_disjoint_busy_witness :
    ¬ ((Interval.mk 540 600).start < (Interval.mk 0 60).stop ∧
        (Interval.mk 540 600).stop > (Interval.mk 0 60).start) :=
  slot_disjoint_busy [⟨0, 60⟩] 0 0 ⟨540, 600⟩ ⟨0, 60⟩ (by decide) (by decide)

/-- `filterMap` preserves pairwiseness along the mapping. -/
theorem pairwise_filterMap_of {α β : Type} {R : β → β → Prop} {f : α → Option β}
    {l : List α}
    (h : List.Pairwise (fun a b => ∀ x, f a = some x → ∀ y, f b = some y → R x y) l) :
    List.Pairwise R (l.filterMap f) := by
  induction l with
  | nil => simp
  | cons a l ih =>
    rw [List.pairwise_cons] at h
    obtain ⟨ha, hl⟩ := h
    rw [List.filterMap_cons]
    cases hfa : f a with
    | none => exact ih hl
    | some x =>
      refine List.Pairwise.cons ?_ (ih hl)
      intro y hy
      rw [List.mem_filterMap] at hy
      obtain ⟨b, hb, hfb⟩ := hy
      exact ha b hb x hfa y hfb

/-- `flatMap` preserves pairwiseness when the blocks are pairwise and
ordered against each other. -/
theorem pairwise_flatMap_of {α β : Type} {R : β → β → Prop} {f : α → List β}
    {l : List α}
    (hcross : List.Pairwise (fun a b => ∀ x ∈ f a, ∀ y ∈ f b, R x y) l)
    (hwithin : ∀ a ∈ l, List.Pairwise R (f a)) :
    List.Pairwise R (l.flatMap f) := by
  induction l with
  | nil => simp
  | cons a l ih =>
    rw [List.pairwise_cons] at hcross
    obtain ⟨ha, hl⟩ := hcross
    rw [List.flatMap_cons, List.pairwise_append]
    refine ⟨hwithin a (by simp), ih hl (fun b hb => hwithin b (by simp [hb])), ?_⟩
    intro x hx y hy
    rw [List.mem_flatMap] at hy
    obtain ⟨b, hb, hyb⟩ := hy
    exact ha b hb x hx y hyb

/-- Within one day, generated slots are strictly increasing in start time. -/
theorem daySlots_sorted (busy : List Interval) (day : Nat) :
    List.Pairwise (fun a b : Interval => a.start < b.start) (daySlots busy day) := by
  unfold daySlots
  apply pairwise_filterMap_of
  refine (List.pairwise_lt_range 9).imp ?_
  intro i j hij x hx y hy
  dsimp only at hx hy
  split at hx
  · exact absurd hx (by simp)
  · split at hy
    · exact absurd hy (by simp)
    · cases hx
      cases hy
      simpa using by omega

/-- Across the whole scanned window, generated slots are strictly
increasing in start time. -/
theorem availableSlots_sorted (busy : List Interval) (st : Nat) (d : Nat) :
    List.Pairwise (fun a b : Interval => a.start < b.start)
      (availableSlots busy st d) := by
  unfold availableSlots
  apply pairwise_flatMap_of
  · refine (List.pairwise_lt_range (d + 1)).imp ?_
    intro k k' hkk x hx y hy
    dsimp only at hx hy
    split at hx
    · exact absurd hx (by simp)
    · split at hy
      · exact absurd hy (by simp)
      · obtain ⟨i, hi, hxs, _, _⟩ := mem_daySlots hx
        obtain ⟨j, hj, hys, _, _⟩ := mem_daySlots hy
        rw [hxs, hys]
        have h1440 : dayOf st + k < dayOf st + k' := by omega
        calc (dayOf st + k) * 1440 + (9 + i) * 60
            < (dayOf st + k + 1) * 1440 := by omega
          _ ≤ (dayOf st + k') * 1440 := Nat.mul_le_mul_right _ h1440
          _ ≤ (dayOf st + k') * 1440 + (9 + j) * 60 := Nat.le_add_right _ _
  · intro k hk
    dsimp only
    split
    · simp
    · exact daySlots_sorted busy _

/-- The full slot list of the scan is sorted, hence so is its 20-element
truncation. -/
theorem get_calendar_availability_sorted (busy : List Interval) (st : Nat)
    (d : Nat) :
    List.Pairwise (fun a b : Interval => a.start < b.start)
      (get_calendar_availability busy st d) :=
  List.Pairwise.sublist (List.take_sublist _ _) (availableSlots_sorted busy st d)

/-- Claim C5: `get_calendar_availability` returns at most 20 slots, in
strictly increasing chronological order, and the returned list is exactly
the chronologically first 20 elements of the full free-slot sequence of
the scanned range. -/
theorem slots_truncated_sorted (busy : List Interval) (st : Nat) (d : Nat) :
    get_calendar_availability busy st d = (availableSlots busy st d).take 20 ∧
    (get_calendar_availability busy st d).length ≤ 20 ∧
    List.Pairwise (fun a b : Interval => a.start < b.start)
      (get_calendar_availability busy st d) := by
  refine ⟨rfl, ?_, get_calendar_availability_sorted busy st d⟩
  rw [get_calendar_availability, List.length_take]
  omega

/-- On a start-sorted list, the slot returned by `find?` has the smallest
start among all elements satisfying the predicate. -/
theorem find_first_le {p : Interval → Bool} {l : List Interval}
    (hsort : List.Pairwise (fun a b : Interval => a.start < b.start) l)
    {s : Interval} (hf : l.find? p = some s) :
    ∀ t ∈ l, p t = true → s.start ≤ t.start := by
  induction l with
  | nil => simp at hf
  | cons a l ih =>
    rw [List.pairwise_cons] at hsort
    obtain ⟨ha, hl⟩ := hsort
    intro t ht hp
    by_cases hpa : p a = true
    · rw [List.find?_cons_of_pos _ hpa] at hf
      cases hf
      rcases List.mem_cons.1 ht with rfl | htl
      · exact Nat.le_refl _
      · exact Nat.le_of_lt (ha t htl)
    · rw [List.find?_cons_of_neg _ hpa] at hf
      rcases List.mem_cons.1 ht with rfl | htl
      · exact absurd hp hpa
      · exact ih hl hf t htl hp

/-- Claim C6: with a deadline present, if some candidate slot qualifies
(its start plus the total duration is at most the deadline — the first
qualifying one being the value of `find?`), `find_optimal_start_time`
returns exactly that first qualifying start, with no warning, and that
start is minimal among all qualifying candidates. -/
theorem chooseStart_deadline_reachable (busy : List Interval) (now dl : Nat)
    (dur : Nat) (s : Interval)
    (hf : (candidates busy now (some dl)).find?
        (fun x => decide (x.start + dur ≤ dl)) = some s) :
    find_optimal_start_time busy now (some dl) dur = ⟨s.start, false⟩ ∧
    s.start + dur ≤ dl ∧
    ∀ t ∈ candidates busy now (some dl), t.start + dur ≤ dl →
      s.start ≤ t.start := by
  have hmem := List.mem_of_find?_eq_some hf
  have hp := List.find?_some hf
  refine ⟨?_, by simpa using hp, ?_⟩
  · unfold find_optimal_start_time
    cases hc : candidates busy now (some dl) with
    | nil => rw [hc] at hmem; simp at hmem
    | cons s0 rest =>
      rw [hc] at hf
      dsimp only
      rw [hf]
  · intro t ht hq
    exact find_first_le (get_calendar_availability_sorted busy _ 14) hf t ht
      (by simpa using hq)

/-- Witness for C6 at a concrete input: on an empty calendar with
`now = 0`, deadline 100000 and total duration 60, the first candidate slot
(epoch Monday 09:00) qualifies and is returned without warning. -/
theorem chooseStart_deadline_reachable_witness :
    find_optimal_start_time [] 0 (some 100000) 60 =
      ⟨(Interval.mk 540 600).start, false⟩ :=
  (chooseStart_deadline_reachable [] 0 100000 60 ⟨540, 600⟩ (by decide)).1

/-- Claim C7: with a deadline present and no qualifying candidate,
`find_optimal_start_time` returns the earliest candidate start and flags
the non-fatal warning (the `warned` field models the printed message; the
function is total, so no fatal error is possible). -/
theorem chooseStart_deadline_unreachable (busy : List Interval) (now dl : Nat)
    (dur : Nat) (s0 : Interval) (rest : List Interval)
    (hc : candidates busy now (some dl) = s0 :: rest)
    (hnone : ∀ t ∈ candidates busy now (some dl), ¬ (t.start + dur ≤ dl)) :
    find_optimal_start_time busy now (some dl) dur = ⟨s0.start, true⟩ := by
  have hf : (candidates busy now (some dl)).find?
      (fun x => decide (x.start + dur ≤ dl)) = none := by
    rw [List.find?_eq_none]
    intro x hx
    simpa using hnone x hx
  unfold find_optimal_start_time
  rw [hc] at hf
  rw [hc]
  dsimp only
  rw [hf]

/-- Witness for C7 at a concrete input: on an empty calendar with
`now = 0` and the impossible deadline 0, no candidate qualifies, and the
earliest candidate start (epoch Monday 09:00) is returned with the
warning flag set. -/
theorem chooseStart_deadline_unreachable_witness :
    find_optimal_start_time [] 0 (some 0) 0 =
      ⟨(Interval.mk 540 600).start, true⟩ :=
  chooseStart_deadline_unreachable [] 0 0 0 ⟨540, 600⟩
    (candidates [] 0 (some 0)).tail (by decide) (by decide)

/-- The placement loop emits one record per item of duration at least 30,
regardless of the insert outcomes. -/
theorem createEventsGo_length (ok : Nat → Bool) (items : List WorkItem) :
    ∀ (i : Nat) (cur : Nat),
      (createEventsGo ok i cur items).length =
        items.countP (fun it => decide (30 ≤ it.duration)) := by
  induction items with
  | nil => intro i cur; rfl
  | cons it rest ih =>
    intro i cur
    rw [createEventsGo, List.countP_cons]
    by_cases h : it.duration < 30
    · rw [if_pos h, ih]
      have : (decide (30 ≤ it.duration)) = false := by simpa using h
      rw [this]
      simp
    · rw [if_neg h]
      have h30 : (decide (30 ≤ it.duration)) = true := by
        simpa using Nat.not_lt.1 h
      rw [h30]
      by_cases hok : ok i = true
      · rw [if_pos hok]
        simp [ih]
      · rw [if_neg hok]
        simp [ih]

/-- Claim C8: when the external insert call for an item fails, the run
continues — the failed placement is still recorded (with
`inserted = false`, i.e. without external confirmation), the cursor still
advances past the item, and every remaining item of duration at least 30
still produces a placement. -/
theorem insert_failure_continues (ok : Nat → Bool) (i : Nat) (cur : Nat)
    (it : WorkItem) (rest : List WorkItem)
    (hd : 30 ≤ it.duration) (hfail : ok i = false) :
    createEventsGo ok i cur (it :: rest) =
      ⟨cur, it.duration, false⟩ ::
        createEventsGo ok (i + 1) (cur + it.duration + 30) rest ∧
    (createEventsGo ok i cur (it :: rest)).length =
      1 + rest.countP (fun x => decide (30 ≤ x.duration)) := by
  have hstep : createEventsGo ok i cur (it :: rest) =
      ⟨cur, it.duration, false⟩ ::
        createEventsGo ok (i + 1) (cur + it.duration + 30) rest := by
    rw [createEventsGo, if_neg (by omega), if_neg (by simp [hfail])]
  refine ⟨hstep, ?_⟩
  rw [hstep]
  simp only [List.length_cons, createEventsGo_length]
  omega

/-- Witness for C8 at a concrete input: with every insert failing, the
first item (60 min at Monday 09:00) is still recorded and the 45-minute
item after it is still placed. -/
theorem insert_failure_continues_witness :
    (createEventsGo (fun _ => false) 0 540 [⟨60⟩, ⟨45⟩] =
      Placement.mk 540 (WorkItem.mk 60).duration false ::
        createEventsGo (fun _ => false) 1 (540 + (WorkItem.mk 60).duration + 30)
          [⟨45⟩]) ∧
    (createEventsGo (fun _ => false) 0 540 [⟨60⟩, ⟨45⟩]).length =
      1 + List.countP (fun x => decide (30 ≤ x.duration))
            [WorkItem.mk 45] :=
  insert_failure_continues (fun _ => false) 0 540 ⟨60⟩ [⟨45⟩] (by decide) rfl

/-- Claim C10: on insert failure the cursor advance is exactly
`duration + 30` minutes, with no working-hours or weekend adjustment (the
adjustment of src/app.py:495-503 sits inside the `try` block and is
skipped by the `except` path); consequently a subsequent placement can
start at hour 18 or later (run from Monday 17:00) or before hour 9 on a
Saturday (run from Friday 23:00). -/
theorem failure_advance_unadjusted :
    (∀ (ok : Nat → Bool) (i : Nat) (cur : Nat) (it : WorkItem)
        (rest : List WorkItem), 30 ≤ it.duration → ok i = false →
      createEventsGo ok i cur (it :: rest) =
        ⟨cur, it.duration, false⟩ ::
          createEventsGo ok (i + 1) (cur + it.duration + 30) rest) ∧
    create_calendar_events (fun _ => false) [⟨60⟩, ⟨60⟩] 1020 =
      [⟨1020, 60, false⟩, ⟨1110, 60, false⟩] ∧
    18 ≤ hourOf 1110 ∧
    create_calendar_events (fun _ => false) [⟨60⟩, ⟨60⟩] 7140 =
      [⟨7140, 60, false⟩, ⟨7230, 60, false⟩] ∧
    weekdayOf 7230 = 5 ∧ hourOf 7230 < 9 := by
    refine ⟨?_, by decide, by decide, by decide, by decide, by decide⟩
    intro ok i cur it rest hd hfail
    rw [createEventsGo, if_neg (by omega), if_neg (by simp [hfail])]

/-- Witness for C10 at a concrete input: a failing 60-minute item at
Monday 17:00 advances the cursor to exactly 18:30 the same day. -/
theorem failure_advance_unadjusted_witness :
    createEventsGo (fun _ => false) 0 1020 [⟨60⟩] =
      Placement.mk 1020 (WorkItem.mk 60).duration false ::
        createEventsGo (fun _ => false) 1 (1020 + (WorkItem.mk 60).duration + 30)
          [] :=
  failure_advance_unadjusted.1 (fun _ => false) 0 1020 ⟨60⟩ [] (by decide) rfl

/-- Claim C1 is FALSE of the code: starting Monday 09:30 (epoch minute 570)
with items of duration 510 and 60 and both inserts succeeding, the cursor
overflow 18:30 is reset to 09:00 of the SAME Monday (the day-advance check
of src/app.py:498 runs after the hour was already reset to 9 and can never
fire), so the second placement Monday 09:00-10:00 overlaps the first
placement Monday 09:30-18:00 and precedes it in start order. -/
theorem placements_overlap_bug :
    create_calendar_events (fun _ => true) [⟨510⟩, ⟨60⟩] 570 =
      [⟨570, 510, true⟩, ⟨540, 60, true⟩] ∧
    540 < 570 + 510 ∧ 570 < 540 + 60 ∧ 540 < 570 := by decide

/-- Claim C2 is FALSE of the code: on the very scenario of the spec
(items [60, 90, 45], buffer 30, start Monday 2024-03-11T17:00 = epoch
minute 1020, all inserts succeeding) the code places item 2 at
09:00-10:30 of the SAME Monday (minute 540) instead of Tuesday
2024-03-12T09:00 (minute 1980), because the day-advance check of
src/app.py:498 tests the hour only after it was already reset to 9. -/
theorem sameday_rollover_bug :
    create_calendar_events (fun _ => true) [⟨60⟩, ⟨90⟩, ⟨45⟩] 1020 =
      [⟨1020, 60, true⟩, ⟨540, 90, true⟩, ⟨660, 45, true⟩] ∧
    dayOf 540 = dayOf 1020 ∧ (540 : Nat) ≠ 1980 ∧ 540 < 1020 := by decide

/-- Claim C9: the slot scan always restarts at hour 9 of the calendar day
of `start_date` itself, so slots can precede `start_date`: with an empty
calendar and `start_date` Monday 11:00 (minute 660), the first returned
slot is Monday 09:00-10:00 (minute 540), on the same day; consequently
`find_optimal_start_time` (here with `now` Monday 13:30 = minute 810,
anchor 14:00 = minute 840, deadline Friday 18:00 = minute 6840) returns
Monday 09:00, earlier than both its search anchor and the current time. -/
theorem slots_precede_start_date :
    (get_calendar_availability [] 660 14).head? = some ⟨540, 600⟩ ∧
    540 < 660 ∧ dayOf 540 = dayOf 660 ∧ hourOf 540 = 9 ∧
    find_optimal_start_time [] 810 (some 6840) 60 = ⟨540, false⟩ ∧
    540 < 810 ∧ 540 < searchStartOf 810 (some 6840) := by decide

end App
